import Mathlib

/-!
Verification development for the iotex-core core subsystems:
the staged write batch with snapshot/revert (`db/batch.go`), the
endorsement set (`endorsement/endorsementset.go`), the dispatcher
(`dispatcher/dispatcher.go`) and the block-sync worker
(`blocksync/worker.go`), shallowly embedded in Lean.
-/

set_option maxRecDepth 4096

namespace IotexCore

/-! ## db: byte strings and errors -/

/-- Byte strings (`[]byte` in the source) are modelled as lists of naturals. -/
abbrev Bytes := List Nat

/-- Error kinds surfaced by the db package (`ErrAlreadyExist`, `ErrNotExist`,
`ErrInvalidDB`). -/
inductive DBError
  | alreadyExist
  | notExist
  | invalidDB
deriving DecidableEq, Repr

/-! ## db: the key/value cache

`db/kvcache.go` is not among the provided sources; only its interface
(`KVStoreCache` with `Write`, `WriteIfNotExist`, `Evict`, `Read`, `Clear`,
`Clone`) is visible from `db/batch.go`. -/

/-- Modelled from the spec: the cache key, "a 20-byte digest of
`H(namespace) || key`" (`pkg/hash` is not among the sources).  The spec
states "Namespaces never collide across the cache", so the digest is
modelled injectively by the `(namespace, key)` pair itself. -/
abbrev CacheHash := String × Bytes

/-- Modelled from the spec: the `KVStoreCache` interface of `db/kvcache.go`
(not among the sources), described by the spec as an in-memory
last-write-wins `key → value` overlay that is cloneable.  Modelled as an
association list whose first matching entry is the current binding. -/
abbrev KVStoreCache := List (CacheHash × Bytes)

/-- Modelled from the spec: `KVStoreCache.Read`; `Get` "fails with
`NOT_FOUND` if absent", so a miss is `none`. -/
def cacheRead : KVStoreCache → CacheHash → Option Bytes
  | [], _ => none
  | (k, v) :: rest, h => if k = h then some v else cacheRead rest h

/-- Modelled from the spec: `KVStoreCache.Write`, last writer wins. -/
def cacheWrite (c : KVStoreCache) (h : CacheHash) (v : Bytes) : KVStoreCache :=
  (h, v) :: c

/-- Modelled from the spec: `KVStoreCache.Evict` removes the binding for a key. -/
def cacheEvict : KVStoreCache → CacheHash → KVStoreCache
  | [], _ => []
  | (k, v) :: rest, h => if k = h then cacheEvict rest h else (k, v) :: cacheEvict rest h

/-- Modelled from the spec: `KVStoreCache.WriteIfNotExist` writes only when
the key has no entry, otherwise fails with `ALREADY_EXISTS`. -/
def cacheWriteIfNotExist (c : KVStoreCache) (h : CacheHash) (v : Bytes) :
    Option DBError × KVStoreCache :=
  match cacheRead c h with
  | some _ => (some .alreadyExist, c)
  | none => (none, cacheWrite c h v)

/-- Modelled from the spec: `KVStoreCache.Clone` deep-clones the cache; on a
pure value a clone is the value itself. -/
def cacheClone (c : KVStoreCache) : KVStoreCache := c

/-! ## db/batch.go: write entries and the base batch -/

/-- The write-type constant `Put` (`int32` value 0 in the source). -/
def Put : Nat := 0

/-- The write-type constant `Delete` (`int32` value 1 in the source). -/
def Delete : Nat := 1

/-- The write-type constant `PutIfNotExists` (`int32` value 2 in the source). -/
def PutIfNotExists : Nat := 2

/-- `writeInfo` stores one Put/Delete operation.  The Go field `namespace`
is spelled `nspace` (`namespace` is a Lean keyword); `errorArgs`
(`...interface{}`, used only for log formatting) is omitted. -/
structure writeInfo where
  writeType : Nat
  nspace : String
  key : Bytes
  value : Bytes
  errorFormat : String
deriving DecidableEq, Repr

/-- `baseKVStoreBatch` is the base implementation of `KVStoreBatch`: an
ordered write queue.  The mutex is concurrency-only and not modelled. -/
structure baseKVStoreBatch where
  writeQueue : List writeInfo
deriving DecidableEq, Repr

/-- `NewBatch` returns an empty batch. -/
def NewBatch : baseKVStoreBatch := ⟨[]⟩

/-- `baseKVStoreBatch.batch` puts an entry into the write queue. -/
def baseKVStoreBatch.batch (b : baseKVStoreBatch) (op : Nat) (ns : String)
    (key value : Bytes) (ef : String) : baseKVStoreBatch :=
  ⟨b.writeQueue ++ [⟨op, ns, key, value, ef⟩]⟩

/-- `baseKVStoreBatch.Put` inserts a `<key, value>` record. -/
def baseKVStoreBatch.Put (b : baseKVStoreBatch) (ns : String) (key value : Bytes)
    (ef : String) : baseKVStoreBatch :=
  b.batch IotexCore.Put ns key value ef

/-- `baseKVStoreBatch.PutIfNotExists` appends a `PutIfNotExists` entry and
returns `nil` (the source performs no existence check here). -/
def baseKVStoreBatch.PutIfNotExists (b : baseKVStoreBatch) (ns : String)
    (key value : Bytes) (ef : String) : Option DBError × baseKVStoreBatch :=
  (none, b.batch IotexCore.PutIfNotExists ns key value ef)

/-- `baseKVStoreBatch.Delete` appends a `Delete` entry (with `nil` value). -/
def baseKVStoreBatch.Delete (b : baseKVStoreBatch) (ns : String) (key : Bytes)
    (ef : String) : baseKVStoreBatch :=
  b.batch IotexCore.Delete ns key [] ef

/-- `baseKVStoreBatch.Size` returns the size of the batch. -/
def baseKVStoreBatch.Size (b : baseKVStoreBatch) : Nat :=
  b.writeQueue.length

/-- `baseKVStoreBatch.Entry` returns the entry at the index, or
`ErrInvalidDB` when the index is out of range. -/
def baseKVStoreBatch.Entry (b : baseKVStoreBatch) (index : Int) :
    Except DBError writeInfo :=
  if index < 0 ∨ (b.writeQueue.length : Int) ≤ index then .error .invalidDB
  else .ok (b.writeQueue.getD index.toNat ⟨IotexCore.Put, "", [], [], ""⟩)

/-- `baseKVStoreBatch.Clear` clears the write queue. -/
def baseKVStoreBatch.Clear (_ : baseKVStoreBatch) : baseKVStoreBatch := ⟨[]⟩

/-- `baseKVStoreBatch.truncate` truncates the write queue to the given size. -/
def baseKVStoreBatch.truncate (b : baseKVStoreBatch) (size : Nat) : baseKVStoreBatch :=
  ⟨b.writeQueue.take size⟩

/-! ## db/batch.go: the cached batch -/

/-- `cachedBatch` implements `CachedBatch`: the embedded `KVStoreBatch`
(write queue), the embedded `KVStoreCache`, the `tag` (latest snapshot + 1),
the recorded queue sizes `batchShots` and the cache clones `cacheShots`. -/
structure cachedBatch where
  base : baseKVStoreBatch
  cache : KVStoreCache
  tag : Nat
  batchShots : List Nat
  cacheShots : List KVStoreCache
deriving DecidableEq, Repr

/-- `cachedBatch.hash` computes the cache key of `(namespace, key)`:
`Hash160b(Hash160b(namespace) || key)` in the source.  Modelled from the
spec as the injective pair, see `CacheHash`. -/
def cachedBatch.hash (_ : cachedBatch) (ns : String) (key : Bytes) : CacheHash :=
  (ns, key)

/-- `NewCachedBatch` returns a new cached batch buffer. -/
def NewCachedBatch : cachedBatch :=
  { base := NewBatch, cache := [], tag := 0, batchShots := [], cacheShots := [] }

/-- `cachedBatch.Size` returns the size of the embedded batch. -/
def cachedBatch.Size (cb : cachedBatch) : Nat := cb.base.Size

/-- `cachedBatch.Put`: write the cache under `hash(ns, key)` and append a
`Put` entry to the write queue. -/
def cachedBatch.Put (cb : cachedBatch) (ns : String) (key value : Bytes)
    (ef : String) : cachedBatch :=
  { cb with cache := cacheWrite cb.cache (cb.hash ns key) value,
            base := cb.base.batch IotexCore.Put ns key value ef }

/-- `cachedBatch.PutIfNotExists`: `WriteIfNotExist` into the cache; on
success also append a `PutIfNotExists` entry; on `ErrAlreadyExist` return
the error with the batch unchanged. -/
def cachedBatch.PutIfNotExists (cb : cachedBatch) (ns : String) (key value : Bytes)
    (ef : String) : Option DBError × cachedBatch :=
  match cacheWriteIfNotExist cb.cache (cb.hash ns key) value with
  | (some e, _) => (some e, cb)
  | (none, c) => (none, { cb with cache := c,
                                  base := cb.base.batch IotexCore.PutIfNotExists ns key value ef })

/-- `cachedBatch.Delete`: evict the cache entry and append a `Delete`
entry to the write queue. -/
def cachedBatch.Delete (cb : cachedBatch) (ns : String) (key : Bytes)
    (ef : String) : cachedBatch :=
  { cb with cache := cacheEvict cb.cache (cb.hash ns key),
            base := cb.base.batch IotexCore.Delete ns key [] ef }

/-- `cachedBatch.Clear` clears the buffer and all saved snapshots. -/
def cachedBatch.Clear (_ : cachedBatch) : cachedBatch := NewCachedBatch

/-- `cachedBatch.Get` retrieves a record from the cache. -/
def cachedBatch.Get (cb : cachedBatch) (ns : String) (key : Bytes) : Option Bytes :=
  cacheRead cb.cache (cb.hash ns key)

/-- `cachedBatch.Snapshot` records the current queue size and a clone of
the cache, returns the current `tag` and then increments it. -/
def cachedBatch.Snapshot (cb : cachedBatch) : Nat × cachedBatch :=
  (cb.tag,
   { cb with batchShots := cb.batchShots ++ [cb.Size],
             cacheShots := cb.cacheShots ++ [cacheClone cb.cache],
             tag := cb.tag + 1 })

/-- `cachedBatch.Revert` sets the cached batch to the state at the given
snapshot: error `ErrInvalidDB` when `snapshot < 0 ∨ snapshot ≥ tag`,
otherwise truncate the write queue to the recorded size, restore the cloned
cache and discard the snapshots taken after `snapshot`. -/
def cachedBatch.Revert (cb : cachedBatch) (snapshot : Int) :
    Option DBError × cachedBatch :=
  if snapshot < 0 ∨ (cb.tag : Int) ≤ snapshot then (some .invalidDB, cb)
  else
    let s := snapshot.toNat
    (none,
     { cb with tag := s + 1,
               batchShots := cb.batchShots.take (s + 1),
               base := cb.base.truncate (cb.batchShots.getD s 0),
               cacheShots := cb.cacheShots.take (s + 1),
               cache := cb.cacheShots.getD s [] })

/-! ## endorsement/endorsementset.go -/

/-- `ConsensusVoteTopic` of an endorsement: `PROPOSAL`, `LOCK` or `COMMIT`. -/
inductive ConsensusVoteTopic
  | PROPOSAL
  | LOCK
  | COMMIT
deriving DecidableEq, Repr

/-- Modelled from the spec: the `Endorsement` record of
`endorsement/endorsement.go` (not among the sources; only its accessors
`Endorser`, `ConsensusVote` and `VerifySignature` are used by
`endorsementset.go`).  Per the spec data model an endorsement is
`{voter, height, round, blockHash, topic, decision, signature}`; the
opaque signature check `VerifySignature` is modelled by the boolean field
`sigValid`. -/
structure Endorsement where
  endorser : String
  height : Nat
  round : Nat
  blkHash : Bytes
  topic : ConsensusVoteTopic
  decision : Bool
  sigValid : Bool
deriving DecidableEq, Repr

/-- Errors of `Set.AddEndorsement`: `ErrExpiredEndorsement`, `ErrInvalidHash`
and `ErrInvalidEndorsement` (invalid signature). -/
inductive EndorseError
  | expiredEndorsement
  | invalidHash
  | invalidEndorsement
deriving DecidableEq, Repr

/-- `Set` is a collection of endorsements for a block (named
`EndorsementSet` here because `Set` is taken by the ambient library). -/
structure EndorsementSet where
  blkHash : Bytes
  round : Nat
  endorsements : List Endorsement
deriving DecidableEq, Repr

/-- `NewSet` creates an endorsement set for a block hash. -/
def NewSet (blkHash : Bytes) : EndorsementSet :=
  { blkHash := blkHash, round := 0, endorsements := [] }

/-- The loop body of `Set.AddEndorsement`: scan for the first entry with
the same endorser and topic; replace it when its round is lower, fail with
`ErrExpiredEndorsement` otherwise; append when no entry matches.  Returns
the error (if any) together with the resulting list (unchanged on error). -/
def addEndorsementList : List Endorsement → Endorsement → Option EndorseError × List Endorsement
  | [], en => (none, [en])
  | e :: rest, en =>
    if e.endorser = en.endorser ∧ e.topic = en.topic then
      if e.round < en.round then (none, en :: rest)
      else (some .expiredEndorsement, e :: rest)
    else
      let r := addEndorsementList rest en
      (r.1, e :: r.2)

/-- `Set.AddEndorsement` adds an endorsement with the right block hash and
signature; on error the set is returned unchanged (the source returns
before mutating). -/
def EndorsementSet.AddEndorsement (s : EndorsementSet) (en : Endorsement) :
    Option EndorseError × EndorsementSet :=
  if ¬(en.blkHash = s.blkHash) then (some .invalidHash, s)
  else if ¬en.sigValid then (some .invalidEndorsement, s)
  else
    let r := addEndorsementList s.endorsements en
    (r.1, { s with endorsements := r.2 })

/-- `Set.SetRound` sets the locked round number. -/
def EndorsementSet.SetRound (s : EndorsementSet) (round : Nat) : EndorsementSet :=
  { s with round := round }

/-- `Set.NumOfValidEndorsements`: count the endorsements whose topic is in
`topics` and whose endorser is in the (deduplicating) endorser set. -/
def NumOfValidEndorsementsLoop (topics : List ConsensusVoteTopic) :
    List Endorsement → List String → Nat
  | [], _ => 0
  | e :: rest, endorserSet =>
    if e.topic ∈ topics ∧ e.endorser ∈ endorserSet then
      1 + NumOfValidEndorsementsLoop topics rest (endorserSet.erase e.endorser)
    else
      NumOfValidEndorsementsLoop topics rest endorserSet

/-- `Set.NumOfValidEndorsements` over the set's endorsement list. -/
def EndorsementSet.NumOfValidEndorsements (s : EndorsementSet)
    (topics : List ConsensusVoteTopic) (endorsers : List String) : Nat :=
  NumOfValidEndorsementsLoop topics s.endorsements endorsers

/-- The round of the first retained endorsement with the given endorser and
topic (the entry the `AddEndorsement` loop inspects). -/
def retainedRound : List Endorsement → String → ConsensusVoteTopic → Option Nat
  | [], _, _ => none
  | e :: rest, en, t => if e.endorser = en ∧ e.topic = t then some e.round
                        else retainedRound rest en t

/-- Run a sequence of `AddEndorsement` calls; on error the caller keeps the
unchanged set (exactly what the pair's second component already is). -/
def runAdds (s : EndorsementSet) : List Endorsement → EndorsementSet
  | [] => s
  | en :: rest => runAdds (s.AddEndorsement en).2 rest

/-- The rounds of the calls in a run of `AddEndorsement` that return no
error and concern the given `(endorser, topic)` pair. -/
def successRounds (s : EndorsementSet) :
    List Endorsement → String → ConsensusVoteTopic → List Nat
  | [], _, _ => []
  | en :: rest, E, T =>
    match s.AddEndorsement en with
    | (none, s') =>
      if en.endorser = E ∧ en.topic = T then en.round :: successRounds s' rest E T
      else successRounds s' rest E T
    | (some _, _) => successRounds s rest E T

/-! ## dispatcher/dispatcher.go -/

/-- Opaque action payload (`*pb.ActionPb`). -/
abbrev ActionPb := Nat

/-- Opaque block payload (`*pb.BlockPb`). -/
abbrev BlockPb := Nat

/-- `ConsensusPb`: height, round and opaque data (per `blockchain.proto`). -/
structure ConsensusPb where
  height : Nat
  round : Nat
  data : Bytes
deriving DecidableEq, Repr

/-- `BlockSync` request range (per `blockchain.proto`). -/
structure BlockSync where
  Start : Nat
  End : Nat
deriving DecidableEq, Repr

/-- Modelled from the spec: the message type codes of the proto package
(`MsgActionType` and friends; `proto/` is not among the sources).  The spec
only requires the codes to be stable and distinct integers. -/
def MsgActionType : Nat := 1

/-- Message type code of a new block broadcast. -/
def MsgBlockProtoMsgType : Nat := 2

/-- Message type code of a block sync request. -/
def MsgBlockSyncReqType : Nat := 3

/-- Message type code of block sync data. -/
def MsgBlockSyncDataType : Nat := 4

/-- Message type code of a consensus message. -/
def MsgConsensusType : Nat := 5

/-- Modelled from the spec: the tagged protobuf envelope dispatched on by
`GetTypeFromProtoMsg` (the free function lives in the proto package, not
among the sources): one of `Action`, `Block`, `BlockSync` request,
`BlockContainer`, or `Consensus`; anything else is unknown. -/
inductive ProtoMessage
  | actionMessage (a : ActionPb)
  | blockMessage (b : BlockPb)
  | blockSyncReq (s : BlockSync)
  | blockContainer (b : BlockPb)
  | consensusMessage (c : ConsensusPb)
  | unknownMessage
deriving DecidableEq, Repr

/-- `GetTypeFromProtoMsg`: the message type code of an envelope, `none` on
an unknown message. -/
def GetTypeFromProtoMsg : ProtoMessage → Option Nat
  | .actionMessage _ => some MsgActionType
  | .blockMessage _ => some MsgBlockProtoMsgType
  | .blockSyncReq _ => some MsgBlockSyncReqType
  | .blockContainer _ => some MsgBlockSyncDataType
  | .consensusMessage _ => some MsgConsensusType
  | .unknownMessage => none

/-- The events travelling through the dispatcher queue: `actionMsg`,
`blockMsg` (tagged with the block type code) and `blockSyncMsg`. -/
inductive EventMsg
  | actionMsg (chainID : Nat) (action : ActionPb)
  | blockMsg (chainID : Nat) (block : BlockPb) (blkType : Nat)
  | blockSyncMsg (chainID : Nat) (sender : String) (sync : BlockSync)
deriving DecidableEq, Repr

/-- A recorded subscriber invocation (one call of the `Subscriber`
interface, tagged with the chain the subscriber is registered for). -/
inductive SubCall
  | handleAction (chainID : Nat) (a : ActionPb)
  | handleBlock (chainID : Nat) (b : BlockPb)
  | handleBlockSync (chainID : Nat) (b : BlockPb)
  | handleSyncRequest (chainID : Nat) (sender : String) (s : BlockSync)
  | handleConsensusMsg (chainID : Nat) (c : ConsensusPb)
deriving DecidableEq, Repr

/-- `IotxDispatcher`: the shutdown flag, the bounded event channel (its
capacity `cfg.Dispatcher.EventChanSize` and current contents), the event
audit map and the subscriber map (subscribers identified by a number). -/
structure IotxDispatcher where
  shutdown : Bool
  eventChanCap : Nat
  eventChan : List EventMsg
  eventAudit : Nat → Nat
  subscribers : Nat → Option Nat

/-- `enqueueEvent`: when the channel is at capacity drop the event (warn
only), otherwise append it.  The producer is never blocked and no error is
returned (the function is total and returns only the new state). -/
def IotxDispatcher.enqueueEvent (d : IotxDispatcher) (event : EventMsg) : IotxDispatcher :=
  if d.eventChan.length = d.eventChanCap then d
  else { d with eventChan := d.eventChan ++ [event] }

/-- `updateEventAudit` increments the audit tally of one message type. -/
def IotxDispatcher.updateEventAudit (d : IotxDispatcher) (t : Nat) : IotxDispatcher :=
  { d with eventAudit := fun u => if u = t then d.eventAudit t + 1 else d.eventAudit u }

/-- `dispatchAction` enqueues an action message unless shut down. -/
def IotxDispatcher.dispatchAction (d : IotxDispatcher) (chainID : Nat)
    (a : ActionPb) : IotxDispatcher :=
  if d.shutdown then d else d.enqueueEvent (.actionMsg chainID a)

/-- `dispatchBlockCommit` enqueues a new-block message unless shut down. -/
def IotxDispatcher.dispatchBlockCommit (d : IotxDispatcher) (chainID : Nat)
    (b : BlockPb) : IotxDispatcher :=
  if d.shutdown then d else d.enqueueEvent (.blockMsg chainID b MsgBlockProtoMsgType)

/-- `dispatchBlockSyncReq` enqueues a block sync request unless shut down. -/
def IotxDispatcher.dispatchBlockSyncReq (d : IotxDispatcher) (chainID : Nat)
    (sender : String) (s : BlockSync) : IotxDispatcher :=
  if d.shutdown then d else d.enqueueEvent (.blockSyncMsg chainID sender s)

/-- `dispatchBlockSyncData` enqueues the block of a `BlockContainer` as a
sync-data block message unless shut down. -/
def IotxDispatcher.dispatchBlockSyncData (d : IotxDispatcher) (chainID : Nat)
    (b : BlockPb) : IotxDispatcher :=
  if d.shutdown then d else d.enqueueEvent (.blockMsg chainID b MsgBlockSyncDataType)

/-- `HandleBroadcast`: return (warn) when no subscriber is registered for
the chain; call `HandleConsensusMsg` synchronously on a consensus message;
enqueue action and new-block messages; warn and drop anything else.  The
second component records the synchronous subscriber calls made. -/
def IotxDispatcher.HandleBroadcast (d : IotxDispatcher) (chainID : Nat)
    (message : ProtoMessage) : IotxDispatcher × List SubCall :=
  match d.subscribers chainID with
  | none => (d, [])
  | some _ =>
    match message with
    | .consensusMessage c => (d, [.handleConsensusMsg chainID c])
    | .actionMessage a => (d.dispatchAction chainID a, [])
    | .blockMessage b => (d.dispatchBlockCommit chainID b, [])
    | _ => (d, [])

/-- `HandleTell`: enqueue block sync requests and block sync data; warn and
drop anything else. -/
def IotxDispatcher.HandleTell (d : IotxDispatcher) (chainID : Nat) (sender : String)
    (message : ProtoMessage) : IotxDispatcher :=
  match message with
  | .blockSyncReq s => d.dispatchBlockSyncReq chainID sender s
  | .blockContainer b => d.dispatchBlockSyncData chainID b
  | _ => d

/-- `handleActionMsg`: update the `MsgActionType` audit tally (before the
subscriber lookup, hence unconditionally), then call `HandleAction` when a
subscriber is registered. -/
def IotxDispatcher.handleActionMsg (d : IotxDispatcher) (chainID : Nat)
    (a : ActionPb) : IotxDispatcher × List SubCall :=
  let d1 := d.updateEventAudit MsgActionType
  match d.subscribers chainID with
  | some _ => (d1, [.handleAction chainID a])
  | none => (d1, [])

/-- `handleBlockMsg`: with a registered subscriber, update the audit tally
of the block type code and call `HandleBlock` (new block) or
`HandleBlockSync` (sync data); without one, do nothing. -/
def IotxDispatcher.handleBlockMsg (d : IotxDispatcher) (chainID : Nat)
    (b : BlockPb) (blkType : Nat) : IotxDispatcher × List SubCall :=
  match d.subscribers chainID with
  | some _ =>
    if blkType = MsgBlockProtoMsgType then
      (d.updateEventAudit MsgBlockProtoMsgType, [.handleBlock chainID b])
    else if blkType = MsgBlockSyncDataType then
      (d.updateEventAudit MsgBlockSyncDataType, [.handleBlockSync chainID b])
    else (d, [])
  | none => (d, [])

/-- `handleBlockSyncMsg`: update the `MsgBlockSyncReqType` audit tally
(before the subscriber lookup, hence unconditionally), then call
`HandleSyncRequest` when a subscriber is registered. -/
def IotxDispatcher.handleBlockSyncMsg (d : IotxDispatcher) (chainID : Nat)
    (sender : String) (s : BlockSync) : IotxDispatcher × List SubCall :=
  let d1 := d.updateEventAudit MsgBlockSyncReqType
  match d.subscribers chainID with
  | some _ => (d1, [.handleSyncRequest chainID sender s])
  | none => (d1, [])

/-- One iteration of the `newsHandler` event loop: consume a single event
from the queue and dispatch on its variant. -/
def IotxDispatcher.consumeEvent (d : IotxDispatcher) : EventMsg → IotxDispatcher × List SubCall
  | .actionMsg c a => d.handleActionMsg c a
  | .blockMsg c b t => d.handleBlockMsg c b t
  | .blockSyncMsg c s r => d.handleBlockSyncMsg c s r

/-! ## blocksync/worker.go -/

/-- `syncBlocksInterval`: an inclusive height range to request. -/
structure syncBlocksInterval where
  Start : Nat
  End : Nat
deriving DecidableEq, Repr

/-- `syncWorker` state relevant to a tick: the monotone target height and
the round-robin index (the rest of the struct holds handlers and the
recurring task). -/
structure syncWorker where
  targetHeight : Nat
  rrIdx : Nat
deriving DecidableEq, Repr

/-- `syncWorker.SetTargetHeight` raises the target height, ignoring
non-increasing values. -/
def syncWorker.SetTargetHeight (w : syncWorker) (h : Nat) : syncWorker :=
  if w.targetHeight < h then { w with targetHeight := h } else w

/-- The request loop of `syncWorker.Sync`: for each interval, reduce the
round-robin index modulo the peer count, emit a unicast `BlockSync` to that
peer and advance the index.  Returns the emitted `(peer, request)` pairs in
order together with the final index. -/
def syncEmitLoop (peers : List String) :
    Nat → List syncBlocksInterval → List (String × BlockSync) × Nat
  | rrIdx, [] => ([], rrIdx)
  | rrIdx, interval :: rest =>
    let idx := rrIdx % peers.length
    let p := peers.getD idx ""
    let r := syncEmitLoop peers (idx + 1) rest
    ((p, ⟨interval.Start, interval.End⟩) :: r.1, r.2)

/-- `syncWorker.Sync` for one tick: with no peers, log and emit nothing;
otherwise emit one unicast request per interval returned by the buffer
(`GetBlocksIntervalsToSync`, whose result is passed in as `intervals`;
`blocksync/buffer.go` is not among the sources). -/
def syncWorker.Sync (w : syncWorker) (peers : List String)
    (intervals : List syncBlocksInterval) : List (String × BlockSync) × syncWorker :=
  if peers.length = 0 then ([], w)
  else
    let r := syncEmitLoop peers w.rrIdx intervals
    (r.1, { w with rrIdx := r.2 })

/-! ## Operation sequences and invariants of the cached batch -/

/-- One client operation on a cached batch (the operations quantified over
by the snapshot round-trip property). -/
inductive BatchOp
  | putOp (ns : String) (key value : Bytes) (ef : String)
  | putIfNotExistsOp (ns : String) (key value : Bytes) (ef : String)
  | deleteOp (ns : String) (key : Bytes) (ef : String)
  | snapshotOp
  | revertOp (t : Int)
deriving DecidableEq, Repr

/-- Apply one operation to a cached batch; a failing `PutIfNotExists` or
`Revert` leaves the batch unchanged (the pair's second component), a
`Snapshot`'s token is discarded. -/
def applyOp (cb : cachedBatch) : BatchOp → cachedBatch
  | .putOp ns k v ef => cb.Put ns k v ef
  | .putIfNotExistsOp ns k v ef => (cb.PutIfNotExists ns k v ef).2
  | .deleteOp ns k ef => cb.Delete ns k ef
  | .snapshotOp => cb.Snapshot.2
  | .revertOp t => (cb.Revert t).2

/-- Apply a sequence of operations in order. -/
def applyOps (cb : cachedBatch) : List BatchOp → cachedBatch
  | [] => cb
  | op :: rest => applyOps (applyOp cb op) rest

/-- `opRespects t op` holds when `op` is not a revert to a snapshot older
than `t` (such a revert discards snapshot `t`, after which the token may be
reissued to a different state). -/
def opRespects (t : Nat) : BatchOp → Bool
  | .revertOp u => (t : Int) ≤ u
  | _ => true

/-- Well-formedness of a cached batch, maintained by every operation and
true of `NewCachedBatch`: the tag counts the recorded snapshots, the
recorded queue sizes are nondecreasing, and each is bounded by the current
queue length. -/
def wfCB (cb : cachedBatch) : Prop :=
  cb.tag = cb.batchShots.length ∧
  cb.tag = cb.cacheShots.length ∧
  cb.batchShots.Pairwise (· ≤ ·) ∧
  ∀ n ∈ cb.batchShots, n ≤ cb.base.writeQueue.length

/-- Snapshot `t` is intact in `cb` and records the queue prefix `q` and the
cache `c`: the shot-recorded size is `q.length`, the recorded cache is `c`,
and the current queue still starts with `q`. -/
def tracksCB (cb : cachedBatch) (t : Nat) (q : List writeInfo) (c : KVStoreCache) : Prop :=
  t < cb.tag ∧
  cb.batchShots.getD t 0 = q.length ∧
  cb.cacheShots.getD t [] = c ∧
  cb.base.writeQueue.take q.length = q

/-- Fold the maximum of a list of rounds onto an optional current maximum. -/
def maxAcc : Option Nat → List Nat → Option Nat
  | o, [] => o
  | none, r :: rest => maxAcc (some r) rest
  | some m, r :: rest => maxAcc (some (max m r)) rest

/-- Two endorsements target the same `(endorser, topic)` slot. -/
def samePair (a b : Endorsement) : Prop :=
  a.endorser = b.endorser ∧ a.topic = b.topic

/-- A concrete dispatcher used by witnesses: capacity 1, empty queue, zero
audit, one subscriber (number 0) registered for chain 7. -/
def sampleDispatcher : IotxDispatcher :=
  { shutdown := false, eventChanCap := 1, eventChan := [],
    eventAudit := fun _ => 0,
    subscribers := fun c => if c = 7 then some 0 else none }

/-- A concrete dispatcher with no subscriber registered for any chain. -/
def noSubDispatcher : IotxDispatcher :=
  { shutdown := false, eventChanCap := 4, eventChan := [],
    eventAudit := fun _ => 0, subscribers := fun _ => none }

/-- Concrete endorsements used by witnesses: endorser A voting LOCK on
block hash `[170]` in rounds 1, 2, and 1 again (the spec's replacement
scenario). -/
def sampleVotes : List Endorsement :=
  [⟨"A", 3, 1, [170], .LOCK, true, true⟩,
   ⟨"A", 3, 2, [170], .LOCK, true, true⟩,
   ⟨"A", 3, 1, [170], .LOCK, true, true⟩]

/-! ## Lemmas about the cache model -/

theorem cacheRead_write_self (c : KVStoreCache) (h : CacheHash) (v : Bytes) :
    cacheRead (cacheWrite c h v) h = some v := by
  simp [cacheWrite, cacheRead]

theorem cacheRead_evict_self (c : KVStoreCache) (h : CacheHash) :
    cacheRead (cacheEvict c h) h = none := by
  induction c with
  | nil => rfl
  | cons p rest ih =>
    obtain ⟨k, v⟩ := p
    by_cases hk : k = h
    · simpa [cacheEvict, hk] using ih
    · simp [cacheEvict, hk, cacheRead, ih]

/-! ## C10: the base batch's PutIfNotExists is unconditional -/

/-- C10: on a plain batch from `NewBatch`, `PutIfNotExists(ns, k, v)`
always returns `nil` and unconditionally appends a `PutIfNotExists` entry
to the write queue, even when an entry for the same namespace and key is
already queued; it never returns an already-exists error. -/
theorem base_putIfNotExists_unconditional (b : baseKVStoreBatch) (ns : String)
    (key value : Bytes) (ef : String) :
    b.PutIfNotExists ns key value ef =
      (none, ⟨b.writeQueue ++ [⟨IotexCore.PutIfNotExists, ns, key, value, ef⟩]⟩) := rfl

/-! ## C3: the cached batch's PutIfNotExists decides existence by cache hit -/

/-- C3: on a cached batch, `PutIfNotExists(ns, k, v)` succeeds and appends
a `PutIfNotExists` entry exactly when the read-through cache has no entry
under `hash(ns, k)`; otherwise it fails with the already-exists error
leaving the batch (in particular the write queue) unchanged; and after
`Delete(ns, k)` evicts the cache entry, a subsequent
`PutIfNotExists(ns, k, v)` succeeds even though a `Delete` entry for that
key is still queued. -/
theorem cached_putIfNotExists_cache_check (cb : cachedBatch) (ns : String)
    (key value : Bytes) (ef : String) :
    (cb.Get ns key = none →
      cb.PutIfNotExists ns key value ef =
        (none, { cb with cache := cacheWrite cb.cache (cb.hash ns key) value,
                         base := cb.base.batch IotexCore.PutIfNotExists ns key value ef })) ∧
    (∀ w, cb.Get ns key = some w →
      cb.PutIfNotExists ns key value ef = (some .alreadyExist, cb)) ∧
    (∀ ef2,
      ((cb.Delete ns key ef2).PutIfNotExists ns key value ef).1 = none ∧
      ((cb.Delete ns key ef2).PutIfNotExists ns key value ef).2.base.writeQueue =
        cb.base.writeQueue ++ [⟨IotexCore.Delete, ns, key, [], ef2⟩,
                               ⟨IotexCore.PutIfNotExists, ns, key, value, ef⟩]) := by
  refine ⟨fun hnone => ?_, fun w hsome => ?_, fun ef2 => ?_⟩
  · simp only [cachedBatch.Get] at hnone
    simp [cachedBatch.PutIfNotExists, cacheWriteIfNotExist, hnone]
  · simp only [cachedBatch.Get] at hsome
    simp [cachedBatch.PutIfNotExists, cacheWriteIfNotExist, hsome]
  · constructor
    · simp [cachedBatch.PutIfNotExists, cacheWriteIfNotExist, cachedBatch.Delete,
        cachedBatch.hash, cacheRead_evict_self]
    · simp [cachedBatch.PutIfNotExists, cacheWriteIfNotExist, cachedBatch.Delete,
        cachedBatch.hash, cacheRead_evict_self, baseKVStoreBatch.batch]

/-- Witness for C3 at a concrete batch: on `NewCachedBatch` the key is
absent, after a `Put` it is present, and after a subsequent `Delete` the
`PutIfNotExists` goes through again. -/
theorem cached_putIfNotExists_cache_check_witness :
    (NewCachedBatch.Get "ns" [7] = none ∧
      NewCachedBatch.PutIfNotExists "ns" [7] [1] "e" =
        (none, { NewCachedBatch with
                   cache := cacheWrite NewCachedBatch.cache (NewCachedBatch.hash "ns" [7]) [1],
                   base := NewCachedBatch.base.batch IotexCore.PutIfNotExists "ns" [7] [1] "e" })) ∧
    ((NewCachedBatch.Put "ns" [7] [2] "e").Get "ns" [7] = some [2] ∧
      (NewCachedBatch.Put "ns" [7] [2] "e").PutIfNotExists "ns" [7] [1] "e" =
        (some .alreadyExist, NewCachedBatch.Put "ns" [7] [2] "e")) ∧
    (((NewCachedBatch.Put "ns" [7] [2] "e").Delete "ns" [7] "d").PutIfNotExists "ns" [7] [1] "e").1 = none :=
  ⟨⟨by decide, (cached_putIfNotExists_cache_check NewCachedBatch "ns" [7] [1] "e").1 (by decide)⟩,
   ⟨by decide, (cached_putIfNotExists_cache_check (NewCachedBatch.Put "ns" [7] [2] "e") "ns" [7] [1] "e").2.1 [2] (by decide)⟩,
   ((cached_putIfNotExists_cache_check (NewCachedBatch.Put "ns" [7] [2] "e") "ns" [7] [1] "e").2.2 "d").1⟩

/-! ## C4: the dispatcher queue is bounded and enqueue never blocks -/

/-- C4: the event queue never exceeds the configured capacity; an enqueue
at capacity drops the event (the state, in particular the queue, is
unchanged), otherwise the event is appended; the enqueue is a total
function of the state that returns no error, so the producer is never
blocked. -/
theorem enqueue_load_shedding (d : IotxDispatcher) (event : EventMsg)
    (hle : d.eventChan.length ≤ d.eventChanCap) :
    (d.enqueueEvent event).eventChan.length ≤ d.eventChanCap ∧
    (d.eventChan.length = d.eventChanCap → d.enqueueEvent event = d) ∧
    (d.eventChan.length ≠ d.eventChanCap →
      (d.enqueueEvent event).eventChan = d.eventChan ++ [event]) := by
  refine ⟨?_, fun hfull => ?_, fun hnotfull => ?_⟩
  · by_cases hfull : d.eventChan.length = d.eventChanCap
    · simp [IotxDispatcher.enqueueEvent, hfull]
    · simp only [IotxDispatcher.enqueueEvent, if_neg hfull, List.length_append,
        List.length_cons, List.length_nil]
      omega
  · simp [IotxDispatcher.enqueueEvent, hfull]
  · simp [IotxDispatcher.enqueueEvent, hnotfull]

/-- Witness for C4 on a concrete dispatcher with capacity 1: the empty
queue is within capacity, the first enqueue stays within the bound, the
full-queue branch drops and the non-full branch appends. -/
theorem enqueue_load_shedding_witness :
    sampleDispatcher.eventChan.length ≤ sampleDispatcher.eventChanCap ∧
    (sampleDispatcher.enqueueEvent (.actionMsg 1 5)).eventChan.length ≤
      sampleDispatcher.eventChanCap ∧
    ((sampleDispatcher.eventChan.length = sampleDispatcher.eventChanCap →
        sampleDispatcher.enqueueEvent (.actionMsg 1 5) = sampleDispatcher) ∧
      (sampleDispatcher.eventChan.length ≠ sampleDispatcher.eventChanCap →
        (sampleDispatcher.enqueueEvent (.actionMsg 1 5)).eventChan = [.actionMsg 1 5])) :=
  ⟨Nat.zero_le 1,
   (enqueue_load_shedding sampleDispatcher (.actionMsg 1 5) (Nat.zero_le 1)).1,
   (enqueue_load_shedding sampleDispatcher (.actionMsg 1 5) (Nat.zero_le 1)).2.1,
   fun h => by
     simpa using
       (enqueue_load_shedding sampleDispatcher (.actionMsg 1 5) (Nat.zero_le 1)).2.2 h⟩

/-! ## C5: consensus broadcasts are handled synchronously, others enqueued -/

/-- C5: with a subscriber registered for the chain and the dispatcher not
shut down, `HandleBroadcast` invokes `HandleConsensusMsg` exactly once,
synchronously, on a consensus message and enqueues no event (the state is
unchanged); action and block broadcast messages produce no synchronous
subscriber call and are instead routed to the event queue through
`enqueueEvent`. -/
theorem handleBroadcast_routing (d : IotxDispatcher) (chainID sub : Nat)
    (hsub : d.subscribers chainID = some sub) (hsd : d.shutdown = false) :
    (∀ c, d.HandleBroadcast chainID (.consensusMessage c) =
      (d, [.handleConsensusMsg chainID c])) ∧
    (∀ a, d.HandleBroadcast chainID (.actionMessage a) =
      (d.enqueueEvent (.actionMsg chainID a), [])) ∧
    (∀ b, d.HandleBroadcast chainID (.blockMessage b) =
      (d.enqueueEvent (.blockMsg chainID b MsgBlockProtoMsgType), [])) := by
  refine ⟨fun c => ?_, fun a => ?_, fun b => ?_⟩
  · simp [IotxDispatcher.HandleBroadcast, hsub]
  · simp [IotxDispatcher.HandleBroadcast, hsub, IotxDispatcher.dispatchAction, hsd]
  · simp [IotxDispatcher.HandleBroadcast, hsub, IotxDispatcher.dispatchBlockCommit, hsd]

/-- Witness for C5 on the sample dispatcher (chain 7 registered): a
consensus broadcast yields exactly one synchronous `HandleConsensusMsg`
call with the queue untouched; an action broadcast yields no synchronous
call and goes through `enqueueEvent`. -/
theorem handleBroadcast_routing_witness :
    sampleDispatcher.subscribers 7 = some 0 ∧
    sampleDispatcher.HandleBroadcast 7 (.consensusMessage ⟨1, 0, []⟩) =
      (sampleDispatcher, [.handleConsensusMsg 7 ⟨1, 0, []⟩]) ∧
    sampleDispatcher.HandleBroadcast 7 (.actionMessage 5) =
      (sampleDispatcher.enqueueEvent (.actionMsg 7 5), []) :=
  ⟨rfl,
   (handleBroadcast_routing sampleDispatcher 7 0 rfl rfl).1 ⟨1, 0, []⟩,
   (handleBroadcast_routing sampleDispatcher 7 0 rfl rfl).2.1 5⟩

/-! ## C8: the sync tick emits one round-robin request per interval -/

theorem syncEmitLoop_length (peers : List String) (i : Nat)
    (ivs : List syncBlocksInterval) :
    (syncEmitLoop peers i ivs).1.length = ivs.length := by
  induction ivs generalizing i with
  | nil => rfl
  | cons iv rest ih => simp [syncEmitLoop, ih]

theorem syncEmitLoop_getD (peers : List String) (_hne : peers.length ≠ 0)
    (ivs : List syncBlocksInterval) (i j : Nat) (hj : j < ivs.length) :
    (syncEmitLoop peers i ivs).1.getD j ("", ⟨0, 0⟩) =
      (peers.getD ((i + j) % peers.length) "",
       ⟨(ivs.getD j ⟨0, 0⟩).Start, (ivs.getD j ⟨0, 0⟩).End⟩) := by
  induction ivs generalizing i j with
  | nil => exact absurd hj (by simp)
  | cons iv rest ih =>
    cases j with
    | zero => simp [syncEmitLoop]
    | succ j =>
      have hj' : j < rest.length := by simpa using hj
      have := ih (i % peers.length + 1) j hj'
      have harith : (i % peers.length + 1 + j) % peers.length =
          (i + (j + 1)) % peers.length := by
        have h1 : i % peers.length + 1 + j = i % peers.length + (1 + j) := by omega
        rw [h1, Nat.mod_add_mod]
        have h2 : i + (1 + j) = i + (j + 1) := by omega
        rw [h2]
      simp only [syncEmitLoop, List.getD_cons_succ]
      rw [this, harith]

/-- C8: on a `Sync` tick with a non-empty peer list and round-robin index
`i` at the start of the tick, exactly one unicast `BlockSync{Start, End}`
request is emitted per interval returned by the buffer, in interval order,
and the `j`-th request (from 0) is addressed to peer `(i + j) mod |peers|`;
with an empty peer list the tick emits nothing. -/
theorem sync_round_robin (w : syncWorker) (peers : List String)
    (intervals : List syncBlocksInterval) :
    (peers = [] → w.Sync peers intervals = ([], w)) ∧
    (peers ≠ [] →
      (w.Sync peers intervals).1.length = intervals.length ∧
      ∀ j, j < intervals.length →
        (w.Sync peers intervals).1.getD j ("", ⟨0, 0⟩) =
          (peers.getD ((w.rrIdx + j) % peers.length) "",
           ⟨(intervals.getD j ⟨0, 0⟩).Start, (intervals.getD j ⟨0, 0⟩).End⟩)) := by
  constructor
  · intro h
    subst h
    simp [syncWorker.Sync]
  · intro hne
    have hlen : peers.length ≠ 0 := by simpa using hne
    constructor
    · simp [syncWorker.Sync, hne, syncEmitLoop_length]
    · intro j hj
      simp only [syncWorker.Sync, if_neg hlen]
      exact syncEmitLoop_getD peers hlen intervals w.rrIdx j hj

/-! ## C9: the audit tally is taken at consumption, not at enqueue -/

/-- C9 counterexample: on a dispatcher with no subscriber registered,
consuming an action event still increments the `MsgActionType` audit tally
(the source increments before the subscriber lookup) although no subscriber
call is made — so the counter does not count "only events that reached a
registered subscriber". -/
theorem audit_counts_unsubscribed_event :
    noSubDispatcher.subscribers 1 = none ∧
    ((noSubDispatcher.consumeEvent (.actionMsg 1 5)).1.eventAudit MsgActionType = 1 ∧
      (noSubDispatcher.consumeEvent (.actionMsg 1 5)).2 = []) :=
  ⟨rfl, rfl, rfl⟩

/-- C9 (amended): each audit counter is incremented exactly once when an
event of its message type is consumed by the event loop — for action and
sync-request events regardless of whether a subscriber is registered, for
block events only when one is — and never at enqueue time, so events
dropped by queue overflow are never counted. -/
theorem audit_on_consumption (d : IotxDispatcher) :
    (∀ e, (d.enqueueEvent e).eventAudit = d.eventAudit) ∧
    (∀ c a,
      (d.consumeEvent (.actionMsg c a)).1.eventAudit MsgActionType =
        d.eventAudit MsgActionType + 1 ∧
      ∀ t, t ≠ MsgActionType →
        (d.consumeEvent (.actionMsg c a)).1.eventAudit t = d.eventAudit t) ∧
    (∀ c s r,
      (d.consumeEvent (.blockSyncMsg c s r)).1.eventAudit MsgBlockSyncReqType =
        d.eventAudit MsgBlockSyncReqType + 1 ∧
      ∀ t, t ≠ MsgBlockSyncReqType →
        (d.consumeEvent (.blockSyncMsg c s r)).1.eventAudit t = d.eventAudit t) ∧
    (∀ c b sub, d.subscribers c = some sub →
      (d.consumeEvent (.blockMsg c b MsgBlockProtoMsgType)).1.eventAudit MsgBlockProtoMsgType =
        d.eventAudit MsgBlockProtoMsgType + 1 ∧
      ∀ t, t ≠ MsgBlockProtoMsgType →
        (d.consumeEvent (.blockMsg c b MsgBlockProtoMsgType)).1.eventAudit t = d.eventAudit t) ∧
    (∀ c b sub, d.subscribers c = some sub →
      (d.consumeEvent (.blockMsg c b MsgBlockSyncDataType)).1.eventAudit MsgBlockSyncDataType =
        d.eventAudit MsgBlockSyncDataType + 1 ∧
      ∀ t, t ≠ MsgBlockSyncDataType →
        (d.consumeEvent (.blockMsg c b MsgBlockSyncDataType)).1.eventAudit t = d.eventAudit t) ∧
    (∀ c b blkType, d.subscribers c = none →
      (d.consumeEvent (.blockMsg c b blkType)).1.eventAudit = d.eventAudit) := by
  refine ⟨fun e => ?_, fun c a => ⟨?_, fun t ht => ?_⟩, fun c s r => ⟨?_, fun t ht => ?_⟩,
    fun c b sub hsub => ⟨?_, fun t ht => ?_⟩, fun c b sub hsub => ⟨?_, fun t ht => ?_⟩,
    fun c b blkType hnone => ?_⟩
  · by_cases hfull : d.eventChan.length = d.eventChanCap <;>
      simp [IotxDispatcher.enqueueEvent, hfull]
  · cases hs : d.subscribers c <;>
      simp [IotxDispatcher.consumeEvent, IotxDispatcher.handleActionMsg,
        IotxDispatcher.updateEventAudit, hs]
  · cases hs : d.subscribers c <;>
      simp [IotxDispatcher.consumeEvent, IotxDispatcher.handleActionMsg,
        IotxDispatcher.updateEventAudit, hs, ht]
  · cases hs : d.subscribers c <;>
      simp [IotxDispatcher.consumeEvent, IotxDispatcher.handleBlockSyncMsg,
        IotxDispatcher.updateEventAudit, hs]
  · cases hs : d.subscribers c <;>
      simp [IotxDispatcher.consumeEvent, IotxDispatcher.handleBlockSyncMsg,
        IotxDispatcher.updateEventAudit, hs, ht]
  · simp [IotxDispatcher.consumeEvent, IotxDispatcher.handleBlockMsg,
      IotxDispatcher.updateEventAudit, hsub, MsgBlockProtoMsgType]
  · simp only [MsgBlockProtoMsgType] at ht
    simp [IotxDispatcher.consumeEvent, IotxDispatcher.handleBlockMsg,
      IotxDispatcher.updateEventAudit, hsub, ht, MsgBlockProtoMsgType]
  · simp [IotxDispatcher.consumeEvent, IotxDispatcher.handleBlockMsg,
      IotxDispatcher.updateEventAudit, hsub, MsgBlockProtoMsgType, MsgBlockSyncDataType]
  · simp only [MsgBlockSyncDataType] at ht
    simp [IotxDispatcher.consumeEvent, IotxDispatcher.handleBlockMsg,
      IotxDispatcher.updateEventAudit, hsub, ht, MsgBlockProtoMsgType, MsgBlockSyncDataType]
  · simp [IotxDispatcher.consumeEvent, IotxDispatcher.handleBlockMsg, hnone]

/-- Witness for C9's amended theorem on the sample dispatchers: enqueue
leaves the audit untouched, consuming an action event bumps its tally from
0 to 1 and leaves the block tally at 0, and new-block and synced-block
events consumed with a registered subscriber each bump their own tally. -/
theorem audit_on_consumption_witness :
    (sampleDispatcher.enqueueEvent (.actionMsg 7 5)).eventAudit = sampleDispatcher.eventAudit ∧
    (sampleDispatcher.consumeEvent (.actionMsg 7 5)).1.eventAudit MsgActionType =
      sampleDispatcher.eventAudit MsgActionType + 1 ∧
    (sampleDispatcher.consumeEvent (.actionMsg 7 5)).1.eventAudit MsgBlockProtoMsgType =
      sampleDispatcher.eventAudit MsgBlockProtoMsgType ∧
    (sampleDispatcher.consumeEvent (.blockMsg 7 9 MsgBlockProtoMsgType)).1.eventAudit
        MsgBlockProtoMsgType = sampleDispatcher.eventAudit MsgBlockProtoMsgType + 1 ∧
    (sampleDispatcher.consumeEvent (.blockMsg 7 9 MsgBlockSyncDataType)).1.eventAudit
        MsgBlockSyncDataType = sampleDispatcher.eventAudit MsgBlockSyncDataType + 1 :=
  ⟨(audit_on_consumption sampleDispatcher).1 (.actionMsg 7 5),
   ((audit_on_consumption sampleDispatcher).2.1 7 5).1,
   ((audit_on_consumption sampleDispatcher).2.1 7 5).2 MsgBlockProtoMsgType (by decide),
   ((audit_on_consumption sampleDispatcher).2.2.2.1 7 9 0 rfl).1,
   ((audit_on_consumption sampleDispatcher).2.2.2.2.1 7 9 0 rfl).1⟩

/-- Witness for C8 on the spec's concrete scenario: peers
`[P1, P2, P3, P1]` and three intervals produce requests addressed to
`P1, P2, P3` in that order (and the empty peer list emits nothing). -/
theorem sync_round_robin_witness :
    ((⟨20, 0⟩ : syncWorker).Sync ["P1", "P2", "P3", "P1"]
        [⟨11, 12⟩, ⟨15, 16⟩, ⟨18, 20⟩]).1.length = 3 ∧
    ((⟨20, 0⟩ : syncWorker).Sync ["P1", "P2", "P3", "P1"]
        [⟨11, 12⟩, ⟨15, 16⟩, ⟨18, 20⟩]).1.getD 0 ("", ⟨0, 0⟩) = ("P1", ⟨11, 12⟩) ∧
    ((⟨20, 0⟩ : syncWorker).Sync ["P1", "P2", "P3", "P1"]
        [⟨11, 12⟩, ⟨15, 16⟩, ⟨18, 20⟩]).1.getD 1 ("", ⟨0, 0⟩) = ("P2", ⟨15, 16⟩) ∧
    ((⟨20, 0⟩ : syncWorker).Sync ["P1", "P2", "P3", "P1"]
        [⟨11, 12⟩, ⟨15, 16⟩, ⟨18, 20⟩]).1.getD 2 ("", ⟨0, 0⟩) = ("P3", ⟨18, 20⟩) ∧
    (⟨20, 0⟩ : syncWorker).Sync [] [⟨11, 12⟩] = ([], ⟨20, 0⟩) := by
  have h := sync_round_robin (⟨20, 0⟩ : syncWorker) ["P1", "P2", "P3", "P1"]
    [⟨11, 12⟩, ⟨15, 16⟩, ⟨18, 20⟩]
  refine ⟨(h.2 (by decide)).1, ?_, ?_, ?_,
    (sync_round_robin (⟨20, 0⟩ : syncWorker) [] [⟨11, 12⟩]).1 rfl⟩
  · simpa using (h.2 (by decide)).2 0 (by decide)
  · simpa using (h.2 (by decide)).2 1 (by decide)
  · simpa using (h.2 (by decide)).2 2 (by decide)

/-! ## Lemmas about the endorsement add loop -/

theorem addEndorsementList_error_unchanged (l : List Endorsement) (en : Endorsement)
    (err : EndorseError) (h : (addEndorsementList l en).1 = some err) :
    (addEndorsementList l en).2 = l := by
  induction l with
  | nil => simp [addEndorsementList] at h
  | cons e rest ih =>
    by_cases hm : e.endorser = en.endorser ∧ e.topic = en.topic
    · by_cases hr : e.round < en.round
      · simp [addEndorsementList, hm, hr] at h
      · simp [addEndorsementList, hm, hr]
    · simp only [addEndorsementList, if_neg hm] at h ⊢
      simp [ih h]

theorem addEndorsementList_expired (l : List Endorsement) (en : Endorsement)
    (r : Nat) (h : retainedRound l en.endorser en.topic = some r)
    (hr : en.round ≤ r) :
    addEndorsementList l en = (some .expiredEndorsement, l) := by
  induction l with
  | nil => simp [retainedRound] at h
  | cons e rest ih =>
    by_cases hm : e.endorser = en.endorser ∧ e.topic = en.topic
    · have hret : e.round = r := by
        simpa [retainedRound, hm] using h
      have hlt : ¬e.round < en.round := by omega
      simp [addEndorsementList, hm, hlt]
    · have h' : retainedRound rest en.endorser en.topic = some r := by
        simpa [retainedRound, hm] using h
      simp [addEndorsementList, hm, ih h']

theorem AddEndorsement_error_unchanged (s : EndorsementSet) (en : Endorsement)
    (err : EndorseError) (h : (s.AddEndorsement en).1 = some err) :
    (s.AddEndorsement en).2 = s := by
  by_cases hh : en.blkHash = s.blkHash
  · by_cases hs : en.sigValid
    · have h1 : (addEndorsementList s.endorsements en).1 = some err := by
        simpa [EndorsementSet.AddEndorsement, hh, hs] using h
      have h2 := addEndorsementList_error_unchanged s.endorsements en err h1
      simp [EndorsementSet.AddEndorsement, hh, hs, h2]
    · simp [EndorsementSet.AddEndorsement, hh, hs]
  · simp [EndorsementSet.AddEndorsement, hh]

/-! ## C7: AddEndorsement error taxonomy -/

/-- C7: `AddEndorsement(e)` returns the invalid-hash error whenever `e`'s
consensus-vote block hash differs from the set's (before any other check,
in particular regardless of the signature); the invalid-signature error
when the hash matches but signature verification fails; the
expired-endorsement error when the retained endorsement of the same
endorser and topic has a round ≥ `e`'s; and on any error the set (in
particular its endorsement list) is unchanged. -/
theorem addEndorsement_error_cases (s : EndorsementSet) (en : Endorsement) :
    (¬(en.blkHash = s.blkHash) → s.AddEndorsement en = (some .invalidHash, s)) ∧
    (en.blkHash = s.blkHash → en.sigValid = false →
      s.AddEndorsement en = (some .invalidEndorsement, s)) ∧
    (en.blkHash = s.blkHash → en.sigValid = true →
      ∀ r, retainedRound s.endorsements en.endorser en.topic = some r →
        en.round ≤ r → s.AddEndorsement en = (some .expiredEndorsement, s)) ∧
    (∀ err res, s.AddEndorsement en = (some err, res) → res = s) := by
  refine ⟨fun hh => ?_, fun hh hs => ?_, fun hh hs r hret hr => ?_, fun err res h => ?_⟩
  · simp [EndorsementSet.AddEndorsement, hh]
  · simp [EndorsementSet.AddEndorsement, hh, hs]
  · have hexp := addEndorsementList_expired s.endorsements en r hret hr
    simp [EndorsementSet.AddEndorsement, hh, hs, hexp]
  · have h1 : (s.AddEndorsement en).1 = some err := by rw [h]
    have h2 := AddEndorsement_error_unchanged s en err h1
    rw [h] at h2
    exact h2

/-- Witness for C7 on a concrete set holding `(A, LOCK, round 5)` for
block hash `0xAA`: a wrong-hash endorsement (even with a bad signature) is
rejected with the invalid-hash error, a right-hash bad-signature one with
the invalid-signature error, and an equal-round duplicate with the
expired-endorsement error — the set unchanged each time. -/
theorem addEndorsement_error_cases_witness :
    (EndorsementSet.AddEndorsement ⟨[170], 0, [⟨"A", 3, 5, [170], .LOCK, true, true⟩]⟩
        ⟨"B", 3, 6, [187], .LOCK, true, false⟩ =
      (some .invalidHash, ⟨[170], 0, [⟨"A", 3, 5, [170], .LOCK, true, true⟩]⟩)) ∧
    (EndorsementSet.AddEndorsement ⟨[170], 0, [⟨"A", 3, 5, [170], .LOCK, true, true⟩]⟩
        ⟨"B", 3, 6, [170], .LOCK, true, false⟩ =
      (some .invalidEndorsement, ⟨[170], 0, [⟨"A", 3, 5, [170], .LOCK, true, true⟩]⟩)) ∧
    (EndorsementSet.AddEndorsement ⟨[170], 0, [⟨"A", 3, 5, [170], .LOCK, true, true⟩]⟩
        ⟨"A", 3, 5, [170], .LOCK, true, true⟩ =
      (some .expiredEndorsement, ⟨[170], 0, [⟨"A", 3, 5, [170], .LOCK, true, true⟩]⟩)) :=
  ⟨(addEndorsement_error_cases _ _).1 (by decide),
   (addEndorsement_error_cases _ _).2.1 (by decide) (by decide),
   (addEndorsement_error_cases _ _).2.2.1 (by decide) (by decide) 5 (by decide) (by decide)⟩

/-! ## C2: endorsement monotonicity -/

theorem addEndorsementList_fst_none (l : List Endorsement) (en : Endorsement) :
    (addEndorsementList l en).1 = none ↔
      retainedRound l en.endorser en.topic = none ∨
      ∃ r, retainedRound l en.endorser en.topic = some r ∧ r < en.round := by
  induction l with
  | nil => simp [addEndorsementList, retainedRound]
  | cons e rest ih =>
    by_cases hm : e.endorser = en.endorser ∧ e.topic = en.topic
    · by_cases hr : e.round < en.round
      · simp [addEndorsementList, retainedRound, hm, hr]
      · simp [addEndorsementList, retainedRound, hm, hr]
    · simp [addEndorsementList, retainedRound, hm, ih]

theorem addEndorsementList_mem (l : List Endorsement) (en b : Endorsement)
    (hb : b ∈ (addEndorsementList l en).2) : b ∈ l ∨ b = en := by
  induction l with
  | nil =>
    simp [addEndorsementList] at hb
    exact Or.inr hb
  | cons e rest ih =>
    by_cases hm : e.endorser = en.endorser ∧ e.topic = en.topic
    · by_cases hr : e.round < en.round
      · simp only [addEndorsementList, if_pos hm, if_pos hr, List.mem_cons] at hb
        rcases hb with hb | hb
        · exact Or.inr hb
        · exact Or.inl (List.mem_cons_of_mem e hb)
      · simp only [addEndorsementList, if_pos hm, if_neg hr, List.mem_cons] at hb
        rcases hb with hb | hb
        · exact Or.inl (hb ▸ List.mem_cons_self e rest)
        · exact Or.inl (List.mem_cons_of_mem e hb)
    · simp only [addEndorsementList, if_neg hm, List.mem_cons] at hb
      rcases hb with hb | hb
      · exact Or.inl (hb ▸ List.mem_cons_self e rest)
      · rcases ih hb with h | h
        · exact Or.inl (List.mem_cons_of_mem e h)
        · exact Or.inr h

theorem retainedRound_add (l : List Endorsement) (en : Endorsement)
    (hok : (addEndorsementList l en).1 = none) (E : String) (T : ConsensusVoteTopic) :
    retainedRound (addEndorsementList l en).2 E T =
      if en.endorser = E ∧ en.topic = T then some en.round
      else retainedRound l E T := by
  induction l with
  | nil => simp [addEndorsementList, retainedRound]
  | cons e rest ih =>
    by_cases hm : e.endorser = en.endorser ∧ e.topic = en.topic
    · by_cases hr : e.round < en.round
      · by_cases hq : en.endorser = E ∧ en.topic = T
        · simp [addEndorsementList, retainedRound, hm, hr, hq]
        · have he : ¬(e.endorser = E ∧ e.topic = T) := by
            intro hc
            exact hq ⟨hm.1 ▸ hc.1, hm.2 ▸ hc.2⟩
          simp [addEndorsementList, retainedRound, hm, hr, hq, he]
      · simp [addEndorsementList, hm, hr] at hok
    · have hok' : (addEndorsementList rest en).1 = none := by
        simpa [addEndorsementList, hm] using hok
      by_cases he : e.endorser = E ∧ e.topic = T
      · have hq : ¬(en.endorser = E ∧ en.topic = T) := by
          intro hc
          exact hm ⟨he.1.trans hc.1.symm, he.2.trans hc.2.symm⟩
        simp only [addEndorsementList, if_neg hm, retainedRound, if_pos he, if_neg hq]
      · simp only [addEndorsementList, if_neg hm, retainedRound, if_neg he, ih hok']

theorem addEndorsementList_pairwise (l : List Endorsement) (en : Endorsement)
    (h : l.Pairwise (fun a b => ¬samePair a b)) :
    (addEndorsementList l en).2.Pairwise (fun a b => ¬samePair a b) := by
  induction l with
  | nil => simp [addEndorsementList]
  | cons e rest ih =>
    rcases List.pairwise_cons.mp h with ⟨hhead, htail⟩
    by_cases hm : e.endorser = en.endorser ∧ e.topic = en.topic
    · by_cases hr : e.round < en.round
      · simp only [addEndorsementList, if_pos hm, if_pos hr]
        refine List.pairwise_cons.mpr ⟨fun b hb hc => ?_, htail⟩
        exact hhead b hb ⟨hm.1.trans hc.1, hm.2.trans hc.2⟩
      · simpa only [addEndorsementList, if_pos hm, if_neg hr] using h
    · simp only [addEndorsementList, if_neg hm]
      refine List.pairwise_cons.mpr ⟨fun b hb => ?_, ih htail⟩
      rcases addEndorsementList_mem rest en b hb with hbl | hbe
      · exact hhead b hbl
      · intro hc
        exact hm ⟨hbe ▸ hc.1, hbe ▸ hc.2⟩

theorem AddEndorsement_ok (s : EndorsementSet) (en : Endorsement) (s' : EndorsementSet)
    (h : s.AddEndorsement en = (none, s')) :
    (addEndorsementList s.endorsements en).1 = none ∧
    s'.endorsements = (addEndorsementList s.endorsements en).2 := by
  by_cases hh : en.blkHash = s.blkHash
  · by_cases hs : en.sigValid
    · simp only [EndorsementSet.AddEndorsement, hh, hs, not_true_eq_false,
        if_false] at h
      have h1 := congrArg Prod.fst h
      have h2 := congrArg Prod.snd h
      simp only at h1 h2
      exact ⟨h1, by rw [← h2]⟩
    · simp [EndorsementSet.AddEndorsement, hh, hs] at h
  · simp [EndorsementSet.AddEndorsement, hh] at h

theorem runAdds_pairwise (s : EndorsementSet) (ens : List Endorsement)
    (h : s.endorsements.Pairwise (fun a b => ¬samePair a b)) :
    (runAdds s ens).endorsements.Pairwise (fun a b => ¬samePair a b) := by
  induction ens generalizing s with
  | nil => exact h
  | cons en rest ih =>
    rcases hadd : s.AddEndorsement en with ⟨fst, s'⟩
    rcases fst with _ | err
    · have hok := AddEndorsement_ok s en s' hadd
      have hp : s'.endorsements.Pairwise (fun a b => ¬samePair a b) := by
        rw [hok.2]
        exact addEndorsementList_pairwise s.endorsements en h
      simpa only [runAdds, hadd] using ih s' hp
    · have hs' : s' = s := by
        have h1 : (s.AddEndorsement en).1 = some err := by rw [hadd]
        have h2 := AddEndorsement_error_unchanged s en err h1
        rw [hadd] at h2
        exact h2
      simpa only [runAdds, hadd, hs'] using ih s h

theorem maxAcc_nil (o : Option Nat) : maxAcc o [] = o := by
  cases o <;> rfl

theorem retainedRound_runAdds (s : EndorsementSet) (ens : List Endorsement)
    (E : String) (T : ConsensusVoteTopic) :
    retainedRound (runAdds s ens).endorsements E T =
      maxAcc (retainedRound s.endorsements E T) (successRounds s ens E T) := by
  induction ens generalizing s with
  | nil => simp [runAdds, successRounds, maxAcc_nil]
  | cons en rest ih =>
    rcases hadd : s.AddEndorsement en with ⟨fst, s'⟩
    rcases fst with _ | err
    · have hok := AddEndorsement_ok s en s' hadd
      simp only [runAdds, successRounds, hadd]
      rw [ih s', hok.2, retainedRound_add _ _ hok.1]
      by_cases hm : en.endorser = E ∧ en.topic = T
      · simp only [if_pos hm]
        rcases (addEndorsementList_fst_none s.endorsements en).mp hok.1 with
          hnone | ⟨r, hr, hlt⟩
        · rw [hm.1, hm.2] at hnone
          rw [hnone]
          rfl
        · rw [hm.1, hm.2] at hr
          rw [hr]
          show maxAcc (some en.round) _ = maxAcc (some (max r en.round)) _
          rw [Nat.max_eq_right (Nat.le_of_lt hlt)]
      · simp only [if_neg hm]
    · have hs' : s' = s := by
        have h1 : (s.AddEndorsement en).1 = some err := by rw [hadd]
        have h2 := AddEndorsement_error_unchanged s en err h1
        rw [hadd] at h2
        exact h2
      simp only [runAdds, successRounds, hadd, hs']
      exact ih s

theorem maxAcc_some_spec (l : List Nat) (m : Nat) :
    ∃ r, maxAcc (some m) l = some r ∧ m ≤ r ∧ (r = m ∨ r ∈ l) ∧ ∀ x ∈ l, x ≤ r := by
  induction l generalizing m with
  | nil => exact ⟨m, rfl, Nat.le_refl m, Or.inl rfl, by simp⟩
  | cons a tl ih =>
    rcases ih (max m a) with ⟨r, hr, hle, hmem, hbound⟩
    refine ⟨r, hr, Nat.le_trans (Nat.le_max_left m a) hle, ?_, ?_⟩
    · rcases hmem with hm | hm
      · rcases max_choice m a with hc | hc
        · exact Or.inl (hm.trans hc)
        · exact Or.inr (by rw [hm.trans hc]; exact List.mem_cons_self a tl)
      · exact Or.inr (List.mem_cons_of_mem a hm)
    · intro x hx
      rcases List.mem_cons.mp hx with hx | hx
      · exact hx ▸ Nat.le_trans (Nat.le_max_right m a) hle
      · exact hbound x hx

theorem maxAcc_none_spec (l : List Nat) (r : Nat) (h : maxAcc none l = some r) :
    r ∈ l ∧ ∀ x ∈ l, x ≤ r := by
  cases l with
  | nil => exact absurd h (by simp [maxAcc])
  | cons a tl =>
    have h' : maxAcc (some a) tl = some r := h
    rcases maxAcc_some_spec tl a with ⟨r', hr', hle, hmem, hbound⟩
    have hrr : r' = r := by
      rw [hr'] at h'
      exact Option.some.inj h'
    subst hrr
    constructor
    · rcases hmem with hm | hm
      · exact hm ▸ List.mem_cons_self a tl
      · exact List.mem_cons_of_mem a hm
    · intro x hx
      rcases List.mem_cons.mp hx with hx | hx
      · exact hx ▸ hle
      · exact hbound x hx

theorem retainedRound_of_mem (l : List Endorsement) (e : Endorsement)
    (hp : l.Pairwise (fun a b => ¬samePair a b)) (he : e ∈ l) :
    retainedRound l e.endorser e.topic = some e.round := by
  induction l with
  | nil => exact absurd he (by simp)
  | cons f rest ih =>
    rcases List.pairwise_cons.mp hp with ⟨hhead, htail⟩
    rcases List.mem_cons.mp he with hef | her
    · subst hef
      simp [retainedRound]
    · by_cases hm : f.endorser = e.endorser ∧ f.topic = e.topic
      · exact absurd hm (hhead e her)
      · simp only [retainedRound, if_neg hm]
        exact ih htail her

theorem filter_pair_le_one (l : List Endorsement) (E : String) (T : ConsensusVoteTopic)
    (hp : l.Pairwise (fun a b => ¬samePair a b)) :
    (l.filter (fun e => decide (e.endorser = E ∧ e.topic = T))).length ≤ 1 := by
  induction l with
  | nil => simp
  | cons e rest ih =>
    rcases List.pairwise_cons.mp hp with ⟨hhead, htail⟩
    by_cases he : e.endorser = E ∧ e.topic = T
    · have hrest : rest.filter (fun b => decide (b.endorser = E ∧ b.topic = T)) = [] := by
        refine List.filter_eq_nil_iff.mpr fun b hb => ?_
        simp only [decide_eq_true_eq, not_and]
        intro h1 h2
        exact hhead b hb ⟨he.1.trans h1.symm, he.2.trans h2.symm⟩
      have hfe : List.filter (fun b => decide (b.endorser = E ∧ b.topic = T)) (e :: rest) = [e] := by
        rw [List.filter_cons, if_pos (by simp [he]), hrest]
      rw [hfe]
      simp
    · simpa [List.filter_cons, he] using ih htail

/-- C2: after any sequence of `AddEndorsement` calls starting from
`NewSet`, each `(endorser, topic)` pair retains at most one endorsement,
and the round of a retained endorsement of that pair is the maximum round
over all `AddEndorsement` calls for that pair that returned no error (it
is one of those rounds and bounds them all). -/
theorem endorsement_max_round (h : Bytes) (ens : List Endorsement) (E : String)
    (T : ConsensusVoteTopic) :
    (((runAdds (NewSet h) ens).endorsements.filter
        (fun e => decide (e.endorser = E ∧ e.topic = T))).length ≤ 1) ∧
    (∀ e ∈ (runAdds (NewSet h) ens).endorsements, e.endorser = E → e.topic = T →
      e.round ∈ successRounds (NewSet h) ens E T ∧
      ∀ x ∈ successRounds (NewSet h) ens E T, x ≤ e.round) := by
  have hpw := runAdds_pairwise (NewSet h) ens (by simp [NewSet])
  refine ⟨filter_pair_le_one _ E T hpw, fun e he hE hT => ?_⟩
  have hret := retainedRound_of_mem _ e hpw he
  rw [hE, hT] at hret
  have hrun := retainedRound_runAdds (NewSet h) ens E T
  rw [hret] at hrun
  exact maxAcc_none_spec _ _ hrun.symm

/-- Witness for C2 on the spec's replacement scenario (rounds 1, 2, then a
rejected 1 from the same `(A, LOCK)` pair): at most one endorsement is
retained for the pair, the retained one has round 2, which is among the
successfully added rounds and bounds them. -/
theorem endorsement_max_round_witness :
    ((runAdds (NewSet [170]) sampleVotes).endorsements.filter
        (fun e => decide (e.endorser = "A" ∧ e.topic = .LOCK))).length ≤ 1 ∧
    (⟨"A", 3, 2, [170], .LOCK, true, true⟩ : Endorsement) ∈
      (runAdds (NewSet [170]) sampleVotes).endorsements ∧
    (2 ∈ successRounds (NewSet [170]) sampleVotes "A" .LOCK ∧
      ∀ x ∈ successRounds (NewSet [170]) sampleVotes "A" .LOCK, x ≤ 2) :=
  ⟨(endorsement_max_round [170] sampleVotes "A" .LOCK).1,
   by decide,
   (endorsement_max_round [170] sampleVotes "A" .LOCK).2
     ⟨"A", 3, 2, [170], .LOCK, true, true⟩ (by decide) rfl rfl⟩

/-! ## C6: Revert's error condition and effect -/

/-- C6: on a well-formed cached batch, `Revert(t)` fails with the
invalid-snapshot error exactly when `t < 0` or `t` is not less than the
number of snapshots currently held, and on failure the batch — write
queue, cache and snapshot stack — is returned unchanged; on success it
returns no error, truncates the write queue to the length recorded at
snapshot `t`, restores the cache saved at snapshot `t`, and discards all
snapshots taken after `t` (keeping exactly `t + 1`, so the tag becomes
`t + 1`). -/
theorem revert_spec (cb : cachedBatch) (hwf : wfCB cb) (t : Int) :
    ((t < 0 ∨ (cb.batchShots.length : Int) ≤ t) →
      cb.Revert t = (some .invalidDB, cb)) ∧
    (0 ≤ t → t < (cb.batchShots.length : Int) →
      (cb.Revert t).1 = none ∧
      (cb.Revert t).2.base.writeQueue =
        cb.base.writeQueue.take (cb.batchShots.getD t.toNat 0) ∧
      (cb.Revert t).2.cache = cb.cacheShots.getD t.toNat [] ∧
      (cb.Revert t).2.batchShots = cb.batchShots.take (t.toNat + 1) ∧
      (cb.Revert t).2.cacheShots = cb.cacheShots.take (t.toNat + 1) ∧
      (cb.Revert t).2.tag = t.toNat + 1) := by
  have htag : cb.tag = cb.batchShots.length := hwf.1
  constructor
  · intro hbad
    have hcond : t < 0 ∨ (cb.tag : Int) ≤ t := by
      rw [htag]
      exact hbad
    simp [cachedBatch.Revert, if_pos hcond]
  · intro h0 hlt
    have hcond : ¬(t < 0 ∨ (cb.tag : Int) ≤ t) := by
      rw [htag]
      omega
    simp [cachedBatch.Revert, if_neg hcond, baseKVStoreBatch.truncate]

/-- Witness for C6 on the concrete well-formed batch obtained by one `Put`
followed by one `Snapshot`: `Revert 1` is rejected with the batch
unchanged, `Revert 0` succeeds and restores the recorded state. -/
theorem revert_spec_witness :
    wfCB ((NewCachedBatch.Put "ns" [1] [10] "e").Snapshot.2) ∧
    ((NewCachedBatch.Put "ns" [1] [10] "e").Snapshot.2).Revert 1 =
      (some .invalidDB, (NewCachedBatch.Put "ns" [1] [10] "e").Snapshot.2) ∧
    (((NewCachedBatch.Put "ns" [1] [10] "e").Snapshot.2).Revert 0).1 = none ∧
    (((NewCachedBatch.Put "ns" [1] [10] "e").Snapshot.2).Revert 0).2.base.writeQueue =
      ((NewCachedBatch.Put "ns" [1] [10] "e").Snapshot.2).base.writeQueue.take
        (((NewCachedBatch.Put "ns" [1] [10] "e").Snapshot.2).batchShots.getD 0 0) := by
  have hwf : wfCB ((NewCachedBatch.Put "ns" [1] [10] "e").Snapshot.2) := by
    refine ⟨rfl, rfl, ?_, ?_⟩
    · decide
    · decide
  have h := revert_spec _ hwf 1
  have h0 := revert_spec _ hwf 0
  exact ⟨hwf, h.1 (Or.inr (by decide)),
    (h0.2 (by decide) (by decide)).1, (h0.2 (by decide) (by decide)).2.1⟩

/-! ## C1: snapshot round-trip -/

theorem getD_nondecreasing (l : List Nat) (hp : l.Pairwise (· ≤ ·)) (i j : Nat)
    (hij : i ≤ j) (hj : j < l.length) : l.getD i 0 ≤ l.getD j 0 := by
  have hi : i < l.length := Nat.lt_of_le_of_lt hij hj
  rw [List.getD_eq_getElem l 0 hi, List.getD_eq_getElem l 0 hj]
  rcases Nat.lt_or_ge i j with hlt | hge
  · exact List.pairwise_iff_getElem.mp hp i j hi hj hlt
  · have : i = j := by omega
    subst this
    exact Nat.le_refl _

theorem getD_take_of_lt {α : Type} (l : List α) (n i : Nat) (d : α) (hin : i < n) :
    (l.take n).getD i d = l.getD i d := by
  rcases Nat.lt_or_ge i l.length with hil | hil
  · have h1 : i < (l.take n).length := by
      simp only [List.length_take]
      omega
    rw [List.getD_eq_getElem _ d h1, List.getD_eq_getElem l d hil]
    exact List.getElem_take _
  · have h1 : (l.take n).length ≤ i := by
      simp only [List.length_take]
      omega
    rw [List.getD_eq_default _ d h1, List.getD_eq_default l d hil]

/-- The queue-prefix recorded by a tracked snapshot is within the current
queue. -/
theorem tracksCB_length_le (cb : cachedBatch) (t : Nat) (q : List writeInfo)
    (c : KVStoreCache) (htr : tracksCB cb t q c) :
    q.length ≤ cb.base.writeQueue.length := by
  have := congrArg List.length htr.2.2.2
  simp only [List.length_take] at this
  omega

/-- Appending an entry to the queue (with any cache change) preserves
well-formedness and every tracked snapshot. -/
theorem wf_tracks_append (cb : cachedBatch) (t : Nat) (q : List writeInfo)
    (c : KVStoreCache) (hwf : wfCB cb) (htr : tracksCB cb t q c)
    (cache' : KVStoreCache) (entry : writeInfo) :
    wfCB { cb with cache := cache', base := ⟨cb.base.writeQueue ++ [entry]⟩ } ∧
    tracksCB { cb with cache := cache', base := ⟨cb.base.writeQueue ++ [entry]⟩ } t q c := by
  obtain ⟨hw1, hw2, hw3, hw4⟩ := hwf
  obtain ⟨ht1, ht2, ht3, ht4⟩ := htr
  have hqlen : q.length ≤ cb.base.writeQueue.length :=
    tracksCB_length_le cb t q c ⟨ht1, ht2, ht3, ht4⟩
  refine ⟨⟨hw1, hw2, hw3, fun n hn => ?_⟩, ht1, ht2, ht3, ?_⟩
  · have := hw4 n hn
    simp only [List.length_append, List.length_cons, List.length_nil]
    omega
  · rw [List.take_append_of_le_length hqlen]
    exact ht4

/-- Taking a snapshot preserves well-formedness. -/
theorem wf_snapshot (cb : cachedBatch) (hwf : wfCB cb) : wfCB cb.Snapshot.2 := by
  obtain ⟨hw1, hw2, hw3, hw4⟩ := hwf
  refine ⟨?_, ?_, ?_, ?_⟩
  · simp [cachedBatch.Snapshot, hw1]
  · simp [cachedBatch.Snapshot, hw2]
  · simp only [cachedBatch.Snapshot]
    refine List.pairwise_append.mpr ⟨hw3, List.pairwise_singleton _ _, ?_⟩
    intro a ha b hb
    simp only [List.mem_singleton] at hb
    subst hb
    exact hw4 a ha
  · simp only [cachedBatch.Snapshot]
    intro n hn
    rcases List.mem_append.mp hn with h | h
    · exact hw4 n h
    · simp only [List.mem_singleton] at h
      subst h
      exact Nat.le_refl _

/-- Taking a snapshot preserves every tracked snapshot. -/
theorem wf_tracks_snapshot (cb : cachedBatch) (t : Nat) (q : List writeInfo)
    (c : KVStoreCache) (hwf : wfCB cb) (htr : tracksCB cb t q c) :
    wfCB cb.Snapshot.2 ∧ tracksCB cb.Snapshot.2 t q c := by
  obtain ⟨hw1, hw2, hw3, hw4⟩ := hwf
  obtain ⟨ht1, ht2, ht3, ht4⟩ := htr
  refine ⟨wf_snapshot cb ⟨hw1, hw2, hw3, hw4⟩, ?_, ?_, ?_, ht4⟩
  · simp only [cachedBatch.Snapshot]
    omega
  · simp only [cachedBatch.Snapshot]
    rw [List.getD_append _ _ _ _ (by omega : t < cb.batchShots.length)]
    exact ht2
  · simp only [cachedBatch.Snapshot]
    rw [List.getD_append _ _ _ _ (by omega : t < cb.cacheShots.length)]
    exact ht3

/-- The reduced form of a successful revert. -/
theorem revert_ok_eq (cb : cachedBatch) (u : Int)
    (hc : ¬(u < 0 ∨ (cb.tag : Int) ≤ u)) :
    cb.Revert u =
      (none,
       { base := ⟨cb.base.writeQueue.take (cb.batchShots.getD u.toNat 0)⟩,
         cache := cb.cacheShots.getD u.toNat [],
         tag := u.toNat + 1,
         batchShots := cb.batchShots.take (u.toNat + 1),
         cacheShots := cb.cacheShots.take (u.toNat + 1) }) := by
  simp only [cachedBatch.Revert, if_neg hc, baseKVStoreBatch.truncate]

/-- A revert to a snapshot not older than a tracked one preserves
well-formedness and the tracked snapshot. -/
theorem wf_tracks_revert (cb : cachedBatch) (t : Nat) (q : List writeInfo)
    (c : KVStoreCache) (hwf : wfCB cb) (htr : tracksCB cb t q c)
    (u : Int) (hu : (t : Int) ≤ u) :
    wfCB (cb.Revert u).2 ∧ tracksCB (cb.Revert u).2 t q c := by
  obtain ⟨hw1, hw2, hw3, hw4⟩ := hwf
  obtain ⟨ht1, ht2, ht3, ht4⟩ := htr
  by_cases hc : u < 0 ∨ (cb.tag : Int) ≤ u
  · simp only [cachedBatch.Revert, if_pos hc]
    exact ⟨⟨hw1, hw2, hw3, hw4⟩, ht1, ht2, ht3, ht4⟩
  · have hu0 : 0 ≤ u := by
      rcases not_or.mp hc with ⟨h1, _⟩
      omega
    have hutag : u < (cb.tag : Int) := by
      rcases not_or.mp hc with ⟨_, h2⟩
      omega
    have hst : t ≤ u.toNat := by omega
    have hstag : u.toNat < cb.tag := by omega
    have hslen : u.toNat < cb.batchShots.length := by omega
    have hslenc : u.toNat < cb.cacheShots.length := by omega
    have hbound : cb.batchShots.getD u.toNat 0 ≤ cb.base.writeQueue.length := by
      refine hw4 _ ?_
      rw [List.getD_eq_getElem _ 0 hslen]
      exact List.getElem_mem hslen
    have hqle : q.length ≤ cb.batchShots.getD u.toNat 0 := by
      rw [← ht2]
      exact getD_nondecreasing cb.batchShots hw3 t u.toNat hst hslen
    rw [revert_ok_eq cb u hc]
    constructor
    · refine ⟨?_, ?_, ?_, ?_⟩
      · simp only [List.length_take]
        omega
      · simp only [List.length_take]
        omega
      · exact hw3.sublist (List.take_sublist _ _)
      · intro n hn
        rcases List.mem_iff_getElem.mp hn with ⟨i, hilen, hi⟩
        have hitake : i < u.toNat + 1 := by
          simp only [List.length_take] at hilen
          omega
        have hilens : i < cb.batchShots.length := by
          simp only [List.length_take] at hilen
          omega
        have hgi : (cb.batchShots.take (u.toNat + 1)).getD i 0 = cb.batchShots.getD i 0 :=
          getD_take_of_lt _ _ _ _ hitake
        have hni : n = cb.batchShots.getD i 0 := by
          rw [← hgi, List.getD_eq_getElem _ 0 hilen, hi]
        have hle : cb.batchShots.getD i 0 ≤ cb.batchShots.getD u.toNat 0 :=
          getD_nondecreasing cb.batchShots hw3 i u.toNat (by omega) hslen
        simp only [List.length_take]
        omega
    · refine ⟨?_, ?_, ?_, ?_⟩
      · show t < u.toNat + 1
        omega
      · show (cb.batchShots.take (u.toNat + 1)).getD t 0 = q.length
        rw [getD_take_of_lt _ _ _ _ (by omega : t < u.toNat + 1)]
        exact ht2
      · show (cb.cacheShots.take (u.toNat + 1)).getD t [] = c
        rw [getD_take_of_lt _ _ _ _ (by omega : t < u.toNat + 1)]
        exact ht3
      · show (cb.base.writeQueue.take (cb.batchShots.getD u.toNat 0)).take q.length = q
        rw [List.take_take]
        rw [Nat.min_eq_left hqle]
        exact ht4

/-- Every operation that does not revert past a tracked snapshot preserves
well-formedness and the tracked snapshot. -/
theorem wf_tracks_step (cb : cachedBatch) (t : Nat) (q : List writeInfo)
    (c : KVStoreCache) (hwf : wfCB cb) (htr : tracksCB cb t q c)
    (op : BatchOp) (hop : opRespects t op = true) :
    wfCB (applyOp cb op) ∧ tracksCB (applyOp cb op) t q c := by
  cases op with
  | putOp ns k v ef =>
    exact wf_tracks_append cb t q c hwf htr _ _
  | putIfNotExistsOp ns k v ef =>
    simp only [applyOp, cachedBatch.PutIfNotExists]
    cases hx : cacheWriteIfNotExist cb.cache (cb.hash ns k) v with
    | mk fst snd =>
      cases fst with
      | some e => exact ⟨hwf, htr⟩
      | none => exact wf_tracks_append cb t q c hwf htr _ _
  | deleteOp ns k ef =>
    exact wf_tracks_append cb t q c hwf htr _ _
  | snapshotOp =>
    exact wf_tracks_snapshot cb t q c hwf htr
  | revertOp u =>
    have hu : (t : Int) ≤ u := by
      simpa [opRespects] using hop
    exact wf_tracks_revert cb t q c hwf htr u hu

/-- A sequence of operations none of which reverts past a tracked snapshot
preserves well-formedness and the tracked snapshot. -/
theorem wf_tracks_runOps (cb : cachedBatch) (t : Nat) (q : List writeInfo)
    (c : KVStoreCache) (hwf : wfCB cb) (htr : tracksCB cb t q c)
    (ops : List BatchOp) (hops : ∀ op ∈ ops, opRespects t op = true) :
    wfCB (applyOps cb ops) ∧ tracksCB (applyOps cb ops) t q c := by
  induction ops generalizing cb with
  | nil => exact ⟨hwf, htr⟩
  | cons op rest ih =>
    have h1 := wf_tracks_step cb t q c hwf htr op (hops op (List.mem_cons_self op rest))
    exact ih _ h1.1 h1.2 fun o ho => hops o (List.mem_cons_of_mem op ho)

/-- Taking a snapshot establishes tracking of the returned token for the
current queue and cache. -/
theorem snapshot_establishes (cb : cachedBatch) (hwf : wfCB cb) :
    wfCB cb.Snapshot.2 ∧
    tracksCB cb.Snapshot.2 cb.Snapshot.1 cb.base.writeQueue cb.cache := by
  obtain ⟨hw1, hw2, hw3, hw4⟩ := hwf
  refine ⟨wf_snapshot cb ⟨hw1, hw2, hw3, hw4⟩, ?_, ?_, ?_, ?_⟩
  · simp [cachedBatch.Snapshot]
  · show (cb.batchShots ++ [cb.Size]).getD cb.tag 0 = cb.base.writeQueue.length
    rw [List.getD_append_right _ _ _ _ (by omega : cb.batchShots.length ≤ cb.tag)]
    rw [hw1]
    simp [cachedBatch.Size, baseKVStoreBatch.Size]
  · show (cb.cacheShots ++ [cacheClone cb.cache]).getD cb.tag [] = cb.cache
    rw [List.getD_append_right _ _ _ _ (by omega : cb.cacheShots.length ≤ cb.tag)]
    rw [hw2]
    simp [cacheClone]
  · exact List.take_length cb.base.writeQueue

/-- Reverting to a tracked snapshot succeeds and restores the recorded
queue and cache. -/
theorem revert_restores (cb : cachedBatch) (t : Nat) (q : List writeInfo)
    (c : KVStoreCache) (hwf : wfCB cb) (htr : tracksCB cb t q c) :
    (cb.Revert t).1 = none ∧
    (cb.Revert t).2.base.writeQueue = q ∧
    (cb.Revert t).2.cache = c := by
  obtain ⟨hw1, hw2, hw3, hw4⟩ := hwf
  obtain ⟨ht1, ht2, ht3, ht4⟩ := htr
  have hc : ¬((t : Int) < 0 ∨ (cb.tag : Int) ≤ (t : Int)) := by
    rw [not_or]
    constructor
    · omega
    · omega
  rw [revert_ok_eq cb (t : Int) hc]
  refine ⟨rfl, ?_, ?_⟩
  · show cb.base.writeQueue.take (cb.batchShots.getD (t : Int).toNat 0) = q
    rw [Int.toNat_natCast, ht2]
    exact ht4
  · show cb.cacheShots.getD (t : Int).toNat [] = c
    rw [Int.toNat_natCast]
    exact ht3

/-- C1 counterexample to the unrestricted claim: token 1 is issued for the
state with queue `[Put k1, Put k2]`; the interleaving sequence
`Revert 0; Put k3; Snapshot` discards that snapshot and reissues token 1
for a different state, so the final `Revert 1` succeeds but restores queue
`[Put k1, Put k3]`, not the state observed when token 1 was first
returned. -/
theorem snapshot_roundtrip_reissue :
    (((applyOps
        ((applyOps NewCachedBatch
          [.putOp "ns" [1] [10] "e", .snapshotOp, .putOp "ns" [2] [20] "e"]).Snapshot.2)
        [.revertOp 0, .putOp "ns" [3] [30] "e", .snapshotOp]).Revert 1).1 = none ∧
     ((applyOps
        ((applyOps NewCachedBatch
          [.putOp "ns" [1] [10] "e", .snapshotOp, .putOp "ns" [2] [20] "e"]).Snapshot.2)
        [.revertOp 0, .putOp "ns" [3] [30] "e", .snapshotOp]).Revert 1).2.base.writeQueue ≠
       ((applyOps NewCachedBatch
          [.putOp "ns" [1] [10] "e", .snapshotOp, .putOp "ns" [2] [20] "e"]).Snapshot.2).base.writeQueue) ∧
    (applyOps NewCachedBatch
      [.putOp "ns" [1] [10] "e", .snapshotOp, .putOp "ns" [2] [20] "e"]).Snapshot.1 = 1 := by
  refine ⟨⟨?_, ?_⟩, ?_⟩ <;> decide

/-- C1 (amended): for a well-formed cached batch, take a snapshot with
token `t`; after any sequence of `Put`, `PutIfNotExists`, `Delete`,
`Snapshot` and `Revert` operations in which every `Revert` uses a token
`≥ t` (so that snapshot `t` is never discarded and its token never
reissued), `Revert t` succeeds and leaves the batch in exactly the state
observed immediately after the snapshot was taken: the write queue is
truncated to the recorded length with identical entries in identical
order, and `Get` returns the same result for every namespace and key. -/
theorem snapshot_roundtrip (cb : cachedBatch) (hwf : wfCB cb) (ops : List BatchOp)
    (hops : ∀ op ∈ ops, opRespects cb.Snapshot.1 op = true) :
    ((applyOps cb.Snapshot.2 ops).Revert (cb.Snapshot.1 : Int)).1 = none ∧
    ((applyOps cb.Snapshot.2 ops).Revert (cb.Snapshot.1 : Int)).2.base.writeQueue =
      cb.Snapshot.2.base.writeQueue ∧
    ∀ ns k, ((applyOps cb.Snapshot.2 ops).Revert (cb.Snapshot.1 : Int)).2.Get ns k =
      cb.Snapshot.2.Get ns k := by
  have hbase := snapshot_establishes cb hwf
  have hrun := wf_tracks_runOps cb.Snapshot.2 cb.Snapshot.1 cb.base.writeQueue cb.cache
    hbase.1 hbase.2 ops hops
  have hrev := revert_restores _ _ _ _ hrun.1 hrun.2
  refine ⟨hrev.1, ?_, ?_⟩
  · rw [hrev.2.1]
    rfl
  · intro ns k
    simp only [cachedBatch.Get, hrev.2.2]
    rfl

/-- Witness for C1 on a concrete run: snapshot the empty batch (token 0),
then `Put`, `Snapshot`, `Revert 0` — all respecting token 0 — and observe
that the final `Revert 0` restores the batch recorded at token 0. -/
theorem snapshot_roundtrip_witness :
    wfCB NewCachedBatch ∧
    (∀ op ∈ ([.putOp "ns" [1] [10] "e", .snapshotOp, .revertOp 0] : List BatchOp),
      opRespects NewCachedBatch.Snapshot.1 op = true) ∧
    (((applyOps NewCachedBatch.Snapshot.2
        [.putOp "ns" [1] [10] "e", .snapshotOp, .revertOp 0]).Revert
        (NewCachedBatch.Snapshot.1 : Int)).1 = none ∧
     ((applyOps NewCachedBatch.Snapshot.2
        [.putOp "ns" [1] [10] "e", .snapshotOp, .revertOp 0]).Revert
        (NewCachedBatch.Snapshot.1 : Int)).2.base.writeQueue =
       NewCachedBatch.Snapshot.2.base.writeQueue ∧
     ∀ ns k, ((applyOps NewCachedBatch.Snapshot.2
        [.putOp "ns" [1] [10] "e", .snapshotOp, .revertOp 0]).Revert
        (NewCachedBatch.Snapshot.1 : Int)).2.Get ns k =
       NewCachedBatch.Snapshot.2.Get ns k) :=
  ⟨⟨rfl, rfl, List.Pairwise.nil, by simp [NewCachedBatch, NewBatch]⟩, by decide,
   snapshot_roundtrip NewCachedBatch
     ⟨rfl, rfl, List.Pairwise.nil, by simp [NewCachedBatch, NewBatch]⟩ _ (by decide)⟩

end IotexCore
